import Mathlib

/-!
Verification of the MySecretApp messaging client core against its
natural-language specification.  The TypeScript source is shallowly
embedded: pure helper functions become Lean functions, stateful
operations become explicit state passing over association lists, and
the platform builtins (tweetnacl, expo-crypto SHA-256, the base-64
codec, JSON.parse) are modelled by executable stand-ins with the same
interface shape; no proved claim depends on a cryptographic property
of the real primitives beyond the authenticated-encryption round-trip
that the stand-in shares with them.
-/

namespace App

/-! ## Byte and string primitives (inline helpers of the repository) -/

/-- Byte sequences; entries are meant to lie below 256. -/
abbrev Bytes := List Nat

/-- Embedding of the repeated inline helper `stringToUint8Array`:
`charCodeAt(i) & 0xFF` for each position. -/
def stringToUint8Array (s : String) : Bytes :=
  s.data.map (fun c => c.toNat % 256)

/-- Embedding of the inline helper `uint8ArrayToString`
(`String.fromCharCode` over the array). -/
def uint8ArrayToString (bs : Bytes) : String :=
  String.mk (bs.map (fun b => Char.ofNat b))

/-- Lowercase hex digit for a value below 16. -/
def hexDigitChar (n : Nat) : Char :=
  if n < 10 then Char.ofNat (48 + n) else Char.ofNat (87 + n)

/-- Embedding of the inline helper `toHex`: each byte printed as two
lowercase hex digits (`('00' + x.toString(16)).slice(-2)`). -/
def toHex (bs : Bytes) : String :=
  String.mk (bs.foldr (fun b acc => hexDigitChar (b / 16 % 16) :: hexDigitChar (b % 16) :: acc) [])

/-- Value of a lowercase-hex or decimal digit character; `none` on any
other character. -/
def hexVal (c : Char) : Option Nat :=
  if 48 ≤ c.toNat ∧ c.toNat ≤ 57 then some (c.toNat - 48)
  else if 97 ≤ c.toNat ∧ c.toNat ≤ 102 then some (c.toNat - 87)
  else none

/-- Strict hex decoding of a character list in pairs; fails on odd
length or a non-hex character. -/
def hexDecodeChars : List Char → Option Bytes
  | [] => some []
  | [_] => none
  | c1 :: c2 :: rest =>
    match hexVal c1, hexVal c2, hexDecodeChars rest with
    | some h, some l, some bs => some ((h * 16 + l) :: bs)
    | _, _, _ => none

/-- Model of the `base-64` library's `encode` (an injective Latin-1
string codec; modelled with a hex alphabet since no claim depends on
the radix).  The source only ever encodes strings produced by
`uint8ArrayToString`, whose characters are below 256. -/
def encodeBase64 (s : String) : String :=
  toHex (stringToUint8Array s)

/-- Model of the `base-64` library's `decode`: `none` models the
`InvalidCharacterError` thrown on input outside the codeword set. -/
def decodeBase64 (s : String) : Option String :=
  (hexDecodeChars s.data).map uint8ArrayToString

/-- Model of the SHA-256 hex digest provided by `expo-crypto`
(`digestStringAsync`): an arbitrary executable function returning 64
lowercase hex characters.  No claim proved here relies on a
cryptographic property of the digest. -/
def modelSha256Hex (s : String) : String :=
  let seed := s.data.foldl (fun a c => (a * 1099511628211 + c.toNat + 131) % (2 ^ 64)) 14695981039346656037
  String.mk ((List.range 64).map (fun i => hexDigitChar ((seed / 2 ^ (4 * (i % 16)) + i * 2654435761) % 16)))

/-! ## Round-trip lemmas for the primitives -/

theorem stringToUint8Array_lt (s : String) : ∀ b ∈ stringToUint8Array s, b < 256 := by
  intro b hb
  simp only [stringToUint8Array, List.mem_map] at hb
  obtain ⟨c, _, rfl⟩ := hb
  exact Nat.mod_lt _ (by norm_num)

theorem toNat_charOfNat (b : Nat) (h : b < 256) : (Char.ofNat b).toNat = b := by
  unfold Char.ofNat
  have hv : Nat.isValidChar b := Or.inl (by omega)
  simp only [hv, dif_pos, Char.ofNatAux, Char.toNat]
  rfl

theorem charOfNat_mod_toNat (c : Char) (h : c.toNat < 256) :
    Char.ofNat (c.toNat % 256) = c := by
  rw [Nat.mod_eq_of_lt h, Char.ofNat_toNat]

theorem uint8ArrayToString_stringToUint8Array (s : String)
    (h : ∀ c ∈ s.data, c.toNat < 256) :
    uint8ArrayToString (stringToUint8Array s) = s := by
  cases s with
  | mk data =>
    simp only [uint8ArrayToString, stringToUint8Array, List.map_map]
    congr 1
    induction data with
    | nil => rfl
    | cons c cs ih =>
      simp only [List.map_cons, Function.comp_apply]
      rw [charOfNat_mod_toNat c (h c (by simp))]
      rw [ih (fun x hx => h x (by simp [String.data]; exact Or.inr hx))]

theorem stringToUint8Array_uint8ArrayToString (bs : Bytes)
    (h : ∀ b ∈ bs, b < 256) :
    stringToUint8Array (uint8ArrayToString bs) = bs := by
  simp only [stringToUint8Array, uint8ArrayToString, List.map_map]
  induction bs with
  | nil => rfl
  | cons b rest ih =>
    simp only [List.map_cons, Function.comp_apply]
    rw [toNat_charOfNat b (h b (by simp))]
    rw [Nat.mod_eq_of_lt (h b (by simp))]
    rw [ih (fun x hx => h x (by simp [hx]))]

theorem hexVal_hexDigitChar : ∀ n < 16, hexVal (hexDigitChar n) = some n := by decide

theorem hexDecodeChars_toHex (bs : Bytes) (h : ∀ b ∈ bs, b < 256) :
    hexDecodeChars (toHex bs).data = some bs := by
  induction bs with
  | nil => rfl
  | cons b rest ih =>
    have hb : b < 256 := h b (List.mem_cons_self _ _)
    have hrest : ∀ x ∈ rest, x < 256 := fun x hx => h x (List.mem_cons_of_mem _ hx)
    simp only [toHex] at ih ⊢
    simp only [List.foldr_cons]
    simp only [hexDecodeChars]
    rw [hexVal_hexDigitChar (b / 16 % 16) (by omega), hexVal_hexDigitChar (b % 16) (by omega)]
    rw [ih hrest]
    have : b / 16 % 16 * 16 + b % 16 = b := by omega
    simp [this]

theorem decodeBase64_encodeBase64 (s : String) (h : ∀ c ∈ s.data, c.toNat < 256) :
    decodeBase64 (encodeBase64 s) = some s := by
  simp only [decodeBase64, encodeBase64]
  rw [hexDecodeChars_toHex _ (stringToUint8Array_lt s)]
  simp [uint8ArrayToString_stringToUint8Array s h]

/-! ## Model of the tweetnacl primitives

`nacl.secretbox` is modelled as an ideal authenticated cipher: the
ciphertext is a 16-byte tag (a function of key, nonce and message)
followed by the message, and `open` succeeds exactly on well-formed
ciphertexts whose tag verifies.  `nacl.box` is layered on top via a
commutative shared-key combination of the two parties' key material,
mirroring the Diffie-Hellman structure of the real primitive. -/

/-- `nacl.secretbox.nonceLength` and `nacl.box.nonceLength` (24). -/
def nonceLength : Nat := 24

/-- `nacl.secretbox.overheadLength` (16). -/
def overheadLength : Nat := 16

/-- Model authentication tag: 16 bytes derived from key, nonce and
message. -/
def macTag (key nonce m : Bytes) : Bytes :=
  let seed := (key ++ nonce ++ m).foldl (fun a b => (a * 131 + b + 1) % (2 ^ 64)) 7
  (List.range 16).map (fun i => (seed / 2 ^ (4 * i) + i * 37) % 256)

/-- Model of `nacl.secretbox`. -/
def secretbox (m nonce key : Bytes) : Bytes :=
  macTag key nonce m ++ m

/-- Model of `nacl.secretbox.open`; `none` models the `null` returned
on authentication failure. -/
def secretboxOpen (c nonce key : Bytes) : Option Bytes :=
  if c.length < overheadLength then none
  else
    let tag := c.take overheadLength
    let m := c.drop overheadLength
    if tag = macTag key nonce m then some m else none

/-- Model of deriving a curve25519 public key from a secret key
(`nacl.box.keyPair.fromSecretKey(...).publicKey`): an arbitrary
executable byte-wise function. -/
def pkOf (sk : Bytes) : Bytes :=
  sk.map (fun b => (b * 7 + 13) % 256)

/-- Model of the box shared key between one party's public key and the
other party's secret key; commutative by construction, mirroring
`sharedKey(pkA, skB) = sharedKey(pkB, skA)`. -/
def boxSharedKey (peerPk mySk : Bytes) : Bytes :=
  List.zipWith (fun a b => (a + b) % 256) peerPk (pkOf mySk)

/-- Model of `nacl.box` (seal to a recipient). -/
def boxSeal (m nonce recipientPk senderSk : Bytes) : Bytes :=
  secretbox m nonce (boxSharedKey recipientPk senderSk)

/-- Model of `nacl.box.open`. -/
def boxOpen (c nonce peerPk mySk : Bytes) : Option Bytes :=
  secretboxOpen c nonce (boxSharedKey peerPk mySk)

theorem macTag_length (key nonce m : Bytes) : (macTag key nonce m).length = 16 := by
  simp [macTag]

theorem macTag_lt (key nonce m : Bytes) : ∀ b ∈ macTag key nonce m, b < 256 := by
  intro b hb
  simp only [macTag, List.mem_map] at hb
  obtain ⟨i, _, rfl⟩ := hb
  exact Nat.mod_lt _ (by norm_num)

theorem secretbox_length (m nonce key : Bytes) :
    (secretbox m nonce key).length = 16 + m.length := by
  simp [secretbox, macTag_length]

theorem secretbox_lt (m nonce key : Bytes) (hm : ∀ b ∈ m, b < 256) :
    ∀ b ∈ secretbox m nonce key, b < 256 := by
  intro b hb
  rcases List.mem_append.mp hb with h | h
  · exact macTag_lt key nonce m b h
  · exact hm b h

theorem secretboxOpen_secretbox (m nonce key : Bytes) :
    secretboxOpen (secretbox m nonce key) nonce key = some m := by
  have hlen := macTag_length key nonce m
  simp only [secretboxOpen, secretbox, overheadLength]
  rw [if_neg, List.take_append_of_le_length (by omega), List.drop_append_of_le_length (by omega)]
  · simp [List.take_of_length_le (le_of_eq hlen), List.drop_eq_nil_of_le (le_of_eq hlen)]
  · simp only [List.length_append, hlen]; omega

/-! ## Key-value store model

`AsyncStorage` and `expo-secure-store` are both string key-value
stores; they are modelled as association lists with
replace-or-append `setItem`, first-match `getItem`, and filtering
`removeItem`. -/

/-- Association-list store. -/
abbrev KV := List (String × String)

/-- `getItem`. -/
def kvGet (k : String) (l : KV) : Option String :=
  (l.find? (fun p => p.1 = k)).map (fun p => p.2)

/-- `setItem` (replace an existing entry, else append). -/
def kvSet (k v : String) (l : KV) : KV :=
  if (l.find? (fun p => p.1 = k)).isSome then
    l.map (fun p => if p.1 = k then (k, v) else p)
  else l ++ [(k, v)]

/-- `removeItem` / `deleteItemAsync`. -/
def kvRemove (k : String) (l : KV) : KV :=
  l.filter (fun p => p.1 ≠ k)

theorem kvGet_kvSet_self (k v : String) (l : KV) : kvGet k (kvSet k v l) = some v := by
  simp only [kvGet, kvSet]
  by_cases h : (l.find? (fun p => p.1 = k)).isSome
  · rw [if_pos h]
    induction l with
    | nil => simp at h
    | cons p rest ih =>
      by_cases hp : p.1 = k
      · simp [List.find?_cons, hp]
      · simp only [List.map_cons, if_neg hp]
        rw [List.find?_cons_of_neg _ (by simpa using hp)]
        apply ih
        rwa [List.find?_cons_of_neg _ (by simpa using hp)] at h
  · rw [if_neg h]
    induction l with
    | nil => simp [List.find?]
    | cons p rest ih =>
      have hp : ¬ p.1 = k := by
        intro hpk
        apply h
        simp [List.find?_cons, hpk]
      simp only [List.cons_append]
      rw [List.find?_cons_of_neg _ (by simpa using hp)]
      apply ih
      intro hs
      apply h
      rw [List.find?_cons_of_neg _ (by simpa using hp)]
      exact hs

theorem kvGet_kvSet_ne (k k' v : String) (l : KV) (h : k' ≠ k) :
    kvGet k' (kvSet k v l) = kvGet k' l := by
  simp only [kvGet, kvSet]
  by_cases hf : (l.find? (fun p => p.1 = k)).isSome
  · rw [if_pos hf]
    clear hf
    induction l with
    | nil => simp
    | cons p rest ih =>
      by_cases hp : p.1 = k
      · have hne : ¬ (k = k') := fun hh => h hh.symm
        have hne2 : ¬ (p.1 = k') := fun hh => h (hh.symm.trans hp)
        simp only [List.map_cons, if_pos hp]
        rw [List.find?_cons_of_neg _ (by simpa using hne)]
        rw [List.find?_cons_of_neg _ (by simpa using hne2)]
        exact ih
      · simp only [List.map_cons, if_neg hp]
        by_cases hpk' : p.1 = k'
        · simp [List.find?_cons, hpk']
        · rw [List.find?_cons_of_neg _ (by simpa using hpk'),
            List.find?_cons_of_neg _ (by simpa using hpk')]
          exact ih
  · rw [if_neg hf]
    rw [List.find?_append]
    cases hres : List.find? (fun p => p.1 = k') l with
    | some p => simp
    | none =>
      simp only [Option.none_or]
      rw [List.find?_cons_of_neg _ (by simpa using fun hh => h hh.symm), List.find?_nil]

theorem kvGet_kvRemove_self (k : String) (l : KV) : kvGet k (kvRemove k l) = none := by
  simp only [kvGet, kvRemove]
  rw [List.find?_eq_none.mpr]
  · rfl
  · intro p hp
    have := List.of_mem_filter hp
    simpa using this

/-! ## Secure Storage Engine (`SecureStorage` module)

State: the underlying unencrypted `AsyncStorage` plus the
derived-and-cached symmetric encryption key (`getEncryptionKey`
returns `null` when no identity secret is stored).  The fresh random
nonce drawn inside `secureSet` / `migrateLegacyData` is an explicit
argument. -/

/-- JSON-relevant whitespace. -/
def jsonWS (c : Char) : Bool :=
  c = ' ' || c = '\t' || c = '\n' || c = '\r'

/-- Model of the `JSON.parse` builtin's success or failure on a raw
string (used by `migrateLegacyData` purely as a validity test).  A
simplified executable stand-in: accepts brace- or bracket-delimited
blobs, quoted strings, numbers and the three literals. -/
def isValidJsonModel (s : String) : Bool :=
  let t := ((s.data.dropWhile jsonWS).reverse.dropWhile jsonWS).reverse
  (!t.isEmpty) &&
    ((t.head? = some '\x7b' && t.getLast? = some '\x7d') ||
     (t.head? = some '[' && t.getLast? = some ']') ||
     (t.head? = some '"' && t.getLast? = some '"' && decide (2 ≤ t.length)) ||
     t = "true".data || t = "false".data || t = "null".data ||
     t.all Char.isDigit)

/-- State of the secure-storage engine. -/
structure StorageState where
  items : KV
  encKey : Option Bytes
deriving Repr, DecidableEq

/-- Embedding of `secureSet`: encrypt `value` under the derived key
with a fresh `nonce`, store `base64(nonce ++ ciphertext)`; `none`
models the exception thrown when no encryption key is available. -/
def secureSet (key value : String) (nonce : Bytes) (st : StorageState) :
    Option StorageState :=
  match st.encKey with
  | none => none
  | some encKey =>
    let messageBytes := stringToUint8Array value
    let encrypted := secretbox messageBytes nonce encKey
    let fullMessage := nonce ++ encrypted
    let encoded := encodeBase64 (uint8ArrayToString fullMessage)
    some { st with items := kvSet key encoded st.items }

/-- The blob `migrateLegacyData` rewrites at `key` when the raw value
is valid legacy JSON. -/
def migratedBlob (raw : String) (nonce : Bytes) (encKey : Bytes) : String :=
  encodeBase64 (uint8ArrayToString (nonce ++ secretbox (stringToUint8Array raw) nonce encKey))

/-- Embedding of `migrateLegacyData`: validate the raw blob as JSON;
on success re-encrypt and persist it and return the plaintext, on
failure delete the storage key and return `null`. -/
def migrateLegacyData (key raw : String) (encKey : Bytes) (nonce : Bytes)
    (st : StorageState) : Option String × StorageState :=
  if isValidJsonModel raw then
    (some raw, { st with items := kvSet key (migratedBlob raw nonce encKey) st.items })
  else
    (none, { st with items := kvRemove key st.items })

/-- Embedding of `secureGet`: read and decrypt; fall back to legacy
migration when the blob fails base64 decoding, is too short to be an
envelope, or fails authenticated decryption.  The guard
`if (!raw) return null` treats a missing or empty stored value as
absent (JS falsiness) before anything else happens.  The nonce
argument is only used by a migration rewrite. -/
def secureGet (key : String) (nonce : Bytes) (st : StorageState) :
    Option String × StorageState :=
  match kvGet key st.items with
  | none => (none, st)
  | some raw =>
    if raw = "" then (none, st)
    else match st.encKey with
    | none => (none, st)
    | some encKey =>
      match decodeBase64 raw with
      | none => migrateLegacyData key raw encKey nonce st
      | some decoded =>
        let fullMessage := stringToUint8Array decoded
        if fullMessage.length < nonceLength + overheadLength then
          migrateLegacyData key raw encKey nonce st
        else
          match secretboxOpen (fullMessage.drop nonceLength) (fullMessage.take nonceLength) encKey with
          | none => migrateLegacyData key raw encKey nonce st
          | some decrypted => (some (uint8ArrayToString decrypted), st)

/-- Embedding of `secureClear`. -/
def secureClear (key : String) (st : StorageState) : StorageState :=
  { st with items := kvRemove key st.items }

/-- The decision `secureGet` makes before falling back to
`migrateLegacyData`: the stored blob is not base64, or decodes to
fewer bytes than a nonce plus the secretbox overhead, or fails
authenticated decryption. -/
def migrationTriggered (raw : String) (encKey : Bytes) : Bool :=
  match decodeBase64 raw with
  | none => true
  | some decoded =>
    let fullMessage := stringToUint8Array decoded
    decide (fullMessage.length < nonceLength + overheadLength) ||
      (secretboxOpen (fullMessage.drop nonceLength) (fullMessage.take nonceLength) encKey).isNone

theorem uint8ArrayToString_char_lt (bs : Bytes) (h : ∀ b ∈ bs, b < 256) :
    ∀ c ∈ (uint8ArrayToString bs).data, c.toNat < 256 := by
  intro c hc
  simp only [uint8ArrayToString, List.mem_map] at hc
  obtain ⟨b, hb, rfl⟩ := hc
  rw [toNat_charOfNat b (h b hb)]
  exact h b hb

theorem toHex_ne_empty (bs : Bytes) (h : bs ≠ []) : toHex bs ≠ "" := by
  cases bs with
  | nil => exact absurd rfl h
  | cons b rest =>
    intro hc
    have hdata : (toHex (b :: rest)).data = [] := by rw [hc]
    simp [toHex] at hdata

/-- Claim C3 (amended): for every storage key and every value whose
characters are all below code point 256 (the engine truncates
character codes with `& 0xFF` on the way in), a `secureGet` after a
successful `secureSet` under the same identity returns exactly the
original value, without touching storage. -/
theorem secure_storage_roundtrip (key value : String) (nonce nonce2 : Bytes)
    (st st' : StorageState)
    (hv : ∀ c ∈ value.data, c.toNat < 256)
    (hn : nonce.length = 24)
    (hnb : ∀ b ∈ nonce, b < 256)
    (hset : secureSet key value nonce st = some st') :
    secureGet key nonce2 st' = (some value, st') := by
  obtain ⟨items0, encKey0⟩ := st
  cases encKey0 with
  | none => simp [secureSet] at hset
  | some ek =>
    simp only [secureSet] at hset
    injection hset with hset
    subst hset
    set messageBytes := stringToUint8Array value with hmb
    set fullMessage := nonce ++ secretbox messageBytes nonce ek with hfm
    have hbytes : ∀ b ∈ fullMessage, b < 256 := by
      intro b hb
      rcases List.mem_append.mp hb with h | h
      · exact hnb b h
      · exact secretbox_lt _ _ _ (hmb ▸ stringToUint8Array_lt value) b h
    have hlen : fullMessage.length = 24 + (16 + messageBytes.length) := by
      simp [hfm, secretbox_length, hn]
    have hfmne : fullMessage ≠ [] := by
      intro hc
      rw [hc] at hlen
      simp only [List.length_nil] at hlen
      omega
    have henc : encodeBase64 (uint8ArrayToString fullMessage) ≠ "" := by
      simp only [encodeBase64, stringToUint8Array_uint8ArrayToString _ hbytes]
      exact toHex_ne_empty fullMessage hfmne
    simp only [secureGet, kvGet_kvSet_self]
    rw [if_neg henc]
    rw [decodeBase64_encodeBase64 _ (uint8ArrayToString_char_lt _ hbytes)]
    simp only [stringToUint8Array_uint8ArrayToString _ hbytes]
    rw [if_neg (by simp only [hlen, nonceLength, overheadLength]; omega)]
    have htake : fullMessage.take nonceLength = nonce := by
      rw [hfm, nonceLength, ← hn, List.take_left]
    have hdrop : fullMessage.drop nonceLength = secretbox messageBytes nonce ek := by
      rw [hfm, nonceLength, ← hn, List.drop_left]
    rw [htake, hdrop]
    simp only [secretboxOpen_secretbox]
    rw [uint8ArrayToString_stringToUint8Array value hv]

/-- Input state for the concrete storage round-trip instances: empty
store, encryption key available. -/
def rtState : StorageState := { items := [], encKey := some (List.replicate 32 1) }

/-- Fresh nonce used by the concrete storage round-trip instances. -/
def rtNonce : Bytes := List.replicate 24 2

/-- The state produced by the concrete `secureSet` of the round-trip
witness. -/
def rtStored : StorageState := (secureSet "k" "hello" rtNonce rtState).getD rtState

set_option maxRecDepth 8000 in
/-- Concrete witness for the amended storage round trip. -/
theorem secure_storage_roundtrip_witness :
    secureGet "k" rtNonce rtStored = (some "hello", rtStored) :=
  secure_storage_roundtrip "k" "hello" rtNonce rtNonce rtState rtStored
    (by decide) (by decide) (by decide) (by rfl)

set_option maxRecDepth 8000 in
/-- Counterexample to claim C3 as stated: for the value consisting of
the single character U+0100, `stringToUint8Array` truncates the code
unit with `& 0xFF`, so the round trip returns U+0000 instead of the
original value. -/
theorem secure_storage_roundtrip_cex :
    (match secureSet "k" "Ā" rtNonce rtState with
     | some st2 => (secureGet "k" rtNonce st2).1
     | none => none) ≠ some "Ā" := by decide

/-- Claim C4 (amended): when the non-empty blob stored at a key is not
decodable base64, or decodes to fewer bytes than nonce plus overhead,
or fails authenticated decryption, `secureGet` attempts legacy
migration: valid JSON is re-encrypted, persisted and returned as
plaintext; anything else is deleted and `none` is returned.  An empty
stored blob is treated as absent by the `if (!raw) return null` guard:
`secureGet` returns `none` and leaves storage untouched, attempting no
migration and no deletion. -/
theorem secure_get_migrates :
    (∀ (key raw : String) (ek nonce : Bytes) (st : StorageState),
      st.encKey = some ek →
      kvGet key st.items = some raw →
      raw ≠ "" →
      migrationTriggered raw ek = true →
      secureGet key nonce st =
        if isValidJsonModel raw then
          (some raw, { st with items := kvSet key (migratedBlob raw nonce ek) st.items })
        else
          (none, { st with items := kvRemove key st.items })) ∧
    (∀ (key : String) (nonce : Bytes) (st : StorageState),
      kvGet key st.items = some "" →
      secureGet key nonce st = (none, st)) := by
  constructor
  · intro key raw ek nonce st hek hraw hraw0 htrig
    obtain ⟨items0, encKey0⟩ := st
    simp only at hek hraw
    subst hek
    simp only [secureGet, hraw]
    rw [if_neg hraw0]
    simp only [migrationTriggered] at htrig
    rcases hdec : decodeBase64 raw with _ | decoded
    · simp only [hdec, migrateLegacyData]
    · simp only [hdec]
      simp only [hdec] at htrig
      rcases Bool.or_eq_true_iff.mp htrig with hshort | hfail
      · rw [if_pos (of_decide_eq_true hshort)]
        simp only [migrateLegacyData]
      · by_cases hshort : (stringToUint8Array decoded).length < nonceLength + overheadLength
        · rw [if_pos hshort]
          simp only [migrateLegacyData]
        · rw [if_neg hshort]
          rw [Option.isNone_iff_eq_none.mp hfail]
          simp only [migrateLegacyData]
  · intro key nonce st hraw
    obtain ⟨items0, encKey0⟩ := st
    simp only at hraw
    simp only [secureGet, hraw]
    rw [if_pos trivial]

/-! ## Safety number (contact details screen, `generateSafetyNumber`) -/

/-- JS `substring(a, b)`: characters in positions `[a, b)`. -/
def substrChars (s : String) (a b : Nat) : String :=
  String.mk ((s.data.drop a).take (b - a))

/-- Model of JS `parseInt(s, 16)` on the all-hex substrings taken from
a digest (the only use site); folds hex digits most-significant
first. -/
def parseIntHex (s : String) : Nat :=
  s.data.foldl (fun a c => a * 16 + ((hexVal c).getD 0)) 0

/-- JS `n.toString().padStart(4, '0').slice(-4)`. -/
def padStart4SliceLast4 (n : Nat) : String :=
  let s := toString n
  let padded := if s.length < 4 then String.mk (List.replicate (4 - s.length) '0') ++ s else s
  String.mk (padded.data.drop (padded.length - 4))

/-- One four-digit group of the safety number, taken from four hex
digits of the digest starting at position `a`. -/
def safetyGroup (hash : String) (a : Nat) : String :=
  padStart4SliceLast4 (parseIntHex (substrChars hash a (a + 4)))

/-- Embedding of `generateSafetyNumber`: sort the two public-key hex
strings (`[key1, key2].sort().join("")`), hash, and render four
groups of four digits. -/
def generateSafetyNumber (key1 key2 : String) : String :=
  let sorted := if key1 ≤ key2 then key1 ++ key2 else key2 ++ key1
  let hash := modelSha256Hex sorted
  safetyGroup hash 0 ++ " " ++ safetyGroup hash 4 ++ " " ++ safetyGroup hash 8 ++ " " ++ safetyGroup hash 12

/-- Claim C7: the safety number is symmetric in the two public keys,
because the keys are sorted before concatenation and hashing. -/
theorem safety_number_symmetric (pkA pkB : String) :
    generateSafetyNumber pkA pkB = generateSafetyNumber pkB pkA := by
  unfold generateSafetyNumber
  rcases le_or_lt pkA pkB with h | h
  · rcases eq_or_lt_of_le h with rfl | hlt
    · rfl
    · rw [if_pos h, if_neg (not_le.mpr hlt)]
  · rw [if_neg (not_le.mpr h), if_pos (le_of_lt h)]

/-! ## PIN lock (LockScreen component) -/

/-- `HASH_ITERATIONS` (50000). -/
def HASH_ITERATIONS : Nat := 50000

/-- Embedding of `hashPin`: domain-separated first hash
(`ghost:pin:v2:salt:pin`) followed by `iterations` rounds of
`sha256(hash + salt)`. -/
def hashPin (pin salt : String) (iterations : Nat) : String :=
  Nat.iterate (fun h => modelSha256Hex (h ++ salt)) iterations
    (modelSha256Hex ("ghost:pin:v2:" ++ salt ++ ":" ++ pin))

/-- Embedding of `hashPinLegacy`: 10000 rounds of `sha256` starting
from `salt + pin`. -/
def hashPinLegacy (pin salt : String) : String :=
  Nat.iterate modelSha256Hex 10000 (salt ++ pin)

/-- Embedding of `getDelay`: the fixed lockout step table. -/
def getDelay (failedAttempts : Nat) : Nat :=
  if failedAttempts ≥ 15 then 300
  else if failedAttempts ≥ 10 then 120
  else if failedAttempts ≥ 7 then 60
  else if failedAttempts ≥ 5 then 30
  else if failedAttempts ≥ 3 then 10
  else 0

/-- Persisted PIN record (`my_app_lock_pin_v1`): hash and salt in the
current format. -/
structure LockRecord where
  hash : String
  salt : String
deriving Repr, DecidableEq

/-- The acceptance test of `handleComplete` in the unlock step:
current-format hash match, else legacy-format match (which also
triggers a rewrite, not modelled here as it does not change
acceptance). -/
def pinMatches (rec : LockRecord) (entered : String) : Bool :=
  hashPin entered rec.salt HASH_ITERATIONS = rec.hash ||
    hashPinLegacy entered rec.salt = rec.hash

/-- Embedding of the unlock branch of `handleComplete`: returns the
new persisted failed-attempt counter and the lockout delay started by
this attempt.  Success resets the counter (`clearFailedAttempts`) and
starts no cooldown; failure increments and persists the counter and
starts `getDelay` of the new value. -/
def verifyUnlock (rec : LockRecord) (failedAttempts : Nat) (entered : String) :
    Nat × Nat :=
  if pinMatches rec entered then (0, 0)
  else (failedAttempts + 1, getDelay (failedAttempts + 1))

/-- Claim C8: the lockout delay computed from the persisted
failed-attempt counter is non-decreasing in the counter; a failed
verification only ever increments the counter (so the required wait
never shrinks), and only a successful verification clears the counter
and so resets the wait to zero. -/
theorem pin_lockout_monotone :
    (∀ a b : Nat, a ≤ b → getDelay a ≤ getDelay b) ∧
    (∀ rec failed entered, pinMatches rec entered = true →
       verifyUnlock rec failed entered = (0, 0) ∧ getDelay 0 = 0) ∧
    (∀ rec failed entered, pinMatches rec entered = false →
       (verifyUnlock rec failed entered).1 = failed + 1 ∧
       getDelay failed ≤ (verifyUnlock rec failed entered).2) := by
  have mono : ∀ a b : Nat, a ≤ b → getDelay a ≤ getDelay b := by
    intro a b h
    unfold getDelay
    split_ifs <;> omega
  refine ⟨mono, ?_, ?_⟩
  · intro rec failed entered h
    exact ⟨by simp [verifyUnlock, h], rfl⟩
  · intro rec failed entered h
    refine ⟨by simp [verifyUnlock, h], ?_⟩
    simp only [verifyUnlock, h, Bool.false_eq_true, if_false]
    exact mono failed (failed + 1) (Nat.le_succ failed)

/-- Concrete witness for the lockout-monotonicity claim. -/
theorem pin_lockout_monotone_witness :
    3 ≤ 5 ∧ getDelay 3 ≤ getDelay 5 :=
  ⟨by decide, pin_lockout_monotone.1 3 5 (by decide)⟩

/-! ## Identity module (`AuthHelper` and the home screen's
`setupIdentity`)

The OS secure store (`expo-secure-store`) is another string key-value
store, modelled by `KV`.  Fresh keypair generation
(`nacl.box.keyPair()`) draws from the platform PRNG; the fresh secret
key is an explicit argument, with the public key derived by `pkOf`. -/

/-- `STORAGE_KEY` (`my_permanent_secret_key_v1`). -/
def STORAGE_KEY : String := "my_permanent_secret_key_v1"

/-- Embedding of `computeID`: uppercase of the first 12 hex characters
of `SHA256(hex(boxPublicKey))`. -/
def computeID (pkHex : String) : String :=
  String.mk (((modelSha256Hex pkHex).data.take 12).map Char.toUpper)

/-- Embedding of `generateNewIdentity` (AuthHelper): generate a fresh
box keypair and persist the base64 of the secret key under
`STORAGE_KEY`; the source comment reads "Overwrites any existing
identity" and nothing is checked before the write. -/
def generateNewIdentity (freshSecret : Bytes) (ss : KV) : KV :=
  kvSet STORAGE_KEY (encodeBase64 (uint8ArrayToString freshSecret)) ss

/-- Embedding of `setupIdentity` (home screen): load the stored secret
key if present (deriving the keypair from it), otherwise generate a
fresh keypair and persist its secret key; returns the derived
secret-key bytes and short ID.  `none` models the caught exception
when the stored blob fails base64 decoding. -/
def setupIdentity (freshSecret : Bytes) (ss : KV) : Option (Bytes × String) × KV :=
  match kvGet STORAGE_KEY ss with
  | some stored =>
    match decodeBase64 stored with
    | none => (none, ss)
    | some s =>
      let sk := stringToUint8Array s
      (some (sk, computeID (toHex (pkOf sk))), ss)
  | none =>
    let sk := freshSecret
    (some (sk, computeID (toHex (pkOf sk))),
      kvSet STORAGE_KEY (encodeBase64 (uint8ArrayToString sk)) ss)

/-- Claim C6 (amended): `generateNewIdentity` persists only the secret
key (the single entry it writes is the base64 secret key, all other
entries are untouched) but succeeds unconditionally, overwriting any
existing identity; the implicit `setupIdentity` path never replaces
an existing identity — it writes a fresh secret key only when none is
stored. -/
theorem identity_creation (freshSecret : Bytes) (ss : KV) :
    (kvGet STORAGE_KEY (generateNewIdentity freshSecret ss) =
        some (encodeBase64 (uint8ArrayToString freshSecret)) ∧
      ∀ k, k ≠ STORAGE_KEY →
        kvGet k (generateNewIdentity freshSecret ss) = kvGet k ss) ∧
    (∀ v, kvGet STORAGE_KEY ss = some v → (setupIdentity freshSecret ss).2 = ss) ∧
    (kvGet STORAGE_KEY ss = none →
      (setupIdentity freshSecret ss).2 = generateNewIdentity freshSecret ss) := by
  refine ⟨⟨kvGet_kvSet_self _ _ _, fun k hk => kvGet_kvSet_ne _ _ _ _ hk⟩, ?_, ?_⟩
  · intro v hv
    simp only [setupIdentity, hv]
    rcases decodeBase64 v with _ | s <;> rfl
  · intro hnone
    simp only [setupIdentity, hnone, generateNewIdentity]

/-- Concrete witness for the amended identity-creation claim. -/
theorem identity_creation_witness :
    kvGet STORAGE_KEY (generateNewIdentity (List.replicate 32 5) []) =
      some (encodeBase64 (uint8ArrayToString (List.replicate 32 5))) ∧
    (setupIdentity (List.replicate 32 9) (generateNewIdentity (List.replicate 32 5) [])).2 =
      generateNewIdentity (List.replicate 32 5) [] :=
  ⟨(identity_creation (List.replicate 32 5) []).1.1,
    (identity_creation (List.replicate 32 9) (generateNewIdentity (List.replicate 32 5) [])).2.1
      (encodeBase64 (uint8ArrayToString (List.replicate 32 5)))
      ((identity_creation (List.replicate 32 5) []).1.1)⟩

set_option maxRecDepth 8000 in
/-- Counterexample to claim C6 as stated: with an identity already
stored, `generateNewIdentity` does not fail — it succeeds and
replaces the stored secret key. -/
theorem identity_creation_cex :
    kvGet STORAGE_KEY
        (generateNewIdentity (List.replicate 32 9)
          (generateNewIdentity (List.replicate 32 5) [])) =
      some (encodeBase64 (uint8ArrayToString (List.replicate 32 9))) ∧
    encodeBase64 (uint8ArrayToString (List.replicate 32 9)) ≠
      encodeBase64 (uint8ArrayToString (List.replicate 32 5)) := by
  constructor
  · decide
  · decide

/-! ## Trust store (contact list)

Contacts are JS objects stored as a JSON array under
`my_contacts_list_v1`; JSON (de)serialisation through the verified
storage layer is modelled as the identity, so operations work on
`List Contact` directly.  Optional JS fields are `Option`s; an absent
`key` field models `undefined`. -/

/-- A contact record. -/
structure Contact where
  id : String
  name : Option String := none
  localAlias : Option String := none
  key : Option String := none
  avatar : Option String := none
  isSelf : Bool := false
  isBlocked : Bool := false
  isVerified : Bool := false
  securityWarning : Bool := false
  pendingNewKey : Option String := none
deriving Repr, DecidableEq

/-- Local file storage (`expo-file-system`): written file name to
content. -/
abbrev FS := List (String × String)

/-- Handshake payload fields as produced by `JSON.parse`; every field
may be absent. -/
structure HSData where
  id : Option String := none
  key : Option String := none
  name : Option String := none
  avatar : Option String := none
deriving Repr, DecidableEq

/-- Split a character list on a separator character, preserving empty
segments (the semantics of JS `String.prototype.split` with a
single-character separator). -/
def splitOnCharAux (sep : Char) : List Char → List Char → List String
  | [], acc => [String.mk acc.reverse]
  | c :: rest, acc =>
    if c = sep then String.mk acc.reverse :: splitOnCharAux sep rest []
    else splitOnCharAux sep rest (c :: acc)

/-- JS `s.split(sep)` for a one-character separator. -/
def splitOnChar (sep : Char) (s : String) : List String :=
  splitOnCharAux sep s.data []

/-- JS `s.substring(n)`. -/
def strDrop (s : String) (n : Nat) : String :=
  String.mk (s.data.drop n)

/-- JS `s.toLowerCase()` (ASCII, sufficient for hex strings). -/
def toLowerStr (s : String) : String :=
  String.mk (s.data.map Char.toLower)

/-- Parse semicolon-separated `name=value` fields into an association
list. -/
def jsonFieldsAux : List String → Option (List (String × String))
  | [] => some []
  | f :: rest =>
    match splitOnChar '=' f with
    | [n, v] => (jsonFieldsAux rest).map (fun l => (n, v) :: l)
    | _ => none

/-- Model of `JSON.parse` restricted to the flat string-valued objects
exchanged by the protocol: a brace-delimited list of
semicolon-separated `name=value` fields; `none` models the thrown
parse error. -/
def jsonObjParse (s : String) : Option (List (String × String)) :=
  match s.data with
  | '\x7b' :: rest =>
    match rest.reverse with
    | '\x7d' :: revBody =>
      let body := String.mk revBody.reverse
      if body = "" then some [] else jsonFieldsAux (splitOnChar ';' body)
    | _ => none
  | _ => none

/-- Field lookup in a parsed object. -/
def objField (n : String) (fields : List (String × String)) : Option String :=
  (fields.find? (fun p => p.1 = n)).map (fun p => p.2)

/-- Model of `JSON.parse` on a handshake payload. -/
def hsParse (s : String) : Option HSData :=
  (jsonObjParse s).map (fun fields =>
    { id := objField "id" fields, key := objField "key" fields,
      name := objField "name" fields, avatar := objField "avatar" fields })

/-- A hex character, case-insensitive (the `/^[A-F0-9]+$/i` and
`/^[a-f0-9]+$/i` character class). -/
def isHexCharCI (c : Char) : Bool :=
  c.isDigit || ('a' ≤ c && c ≤ 'f') || ('A' ≤ c && c ≤ 'F')

/-- Embedding of `validateHandshakeData`: id must be a 12-character
hex string, key a 64-character hex string; a present (truthy) name is
capped at 100 characters and a present avatar at 500000. -/
def validateHandshakeData (d : HSData) : Bool :=
  (match d.id with
   | some i => decide (i.length = 12) && i.data.all isHexCharCI
   | none => false) &&
  (match d.key with
   | some k => decide (k.length = 64) && k.data.all isHexCharCI
   | none => false) &&
  (match d.name with
   | some n => n = "" || decide (n.length ≤ 100)
   | none => true) &&
  (match d.avatar with
   | some a => a = "" || decide (a.length ≤ 500000)
   | none => true)

/-- Model of JS `s.startsWith(p)` (kernel-reducible prefix test). -/
def jsStartsWith (s p : String) : Bool :=
  p.data.isPrefixOf s.data

/-- JS `a || b` on possibly-absent strings (empty string is falsy). -/
def jsOrStr (a b : Option String) : Option String :=
  match a with
  | some s => if s = "" then b else some s
  | none => b

/-- Embedding of `saveAvatarLocally`: size-cap the base64 payload,
split off the data-URI header, and write the bytes to a local file
whose name carries the contact id and current time; returns the file
URI, or `null` on failure. -/
def saveAvatarLocally (id base64Data : String) (nowMs : Int) (fs : FS) :
    Option String × FS :=
  if 500000 < base64Data.length then (none, fs)
  else
    let parts := base64Data.splitOn ";base64,"
    let b64 := match parts.get? 1 with
      | some p => if p = "" then (parts.get? 0).getD "" else p
      | none => (parts.get? 0).getD ""
    if b64 = "" then (none, fs)
    else
      let fileUri := "avatar_" ++ id ++ "_" ++ toString nowMs ++ ".jpg"
      (some fileUri, (fileUri, b64) :: fs)

/-- `list.findIndex(c => c.id === id)`. -/
def findIndexById (did : String) : List Contact → Option Nat
  | [] => none
  | c :: rest =>
    if c.id = did then some 0 else (findIndexById did rest).map (fun i => i + 1)

/-- The `finalAvatar` computation of `addContactFromHandshake`: save a
data-URI avatar locally, pass any other (truthy) avatar value
through. -/
def handshakeFinalAvatar (did : String) (avatar : Option String) (nowMs : Int)
    (fs : FS) : Option String × FS :=
  match avatar with
  | some av =>
    if av ≠ "" && jsStartsWith av "data:" then saveAvatarLocally did av nowMs fs
    else (avatar, fs)
  | none => (avatar, fs)

/-- Embedding of `addContactFromHandshake` (tab layout): validate the
payload; for a known contact id with a different key, stage the new
key (`securityWarning`, `pendingNewKey`) without touching the stored
key; for an equal key refresh name and avatar; otherwise append a new
contact. -/
def addContactFromHandshake (data : HSData) (list : List Contact)
    (fs : FS) (nowMs : Int) : List Contact × FS :=
  if !validateHandshakeData data then (list, fs)
  else match data.id, data.key with
  | some did, some dkey =>
    match findIndexById did list with
    | some i =>
      match list[i]? with
      | none => (list, fs)
      | some existing =>
        if existing.key ≠ some dkey then
          (list.set i { existing with securityWarning := true, pendingNewKey := some dkey }, fs)
        else
          match handshakeFinalAvatar did data.avatar nowMs fs with
          | (finalAvatar, fs2) =>
            (list.set i { existing with name := data.name, avatar := jsOrStr finalAvatar existing.avatar }, fs2)
    | none =>
      match handshakeFinalAvatar did data.avatar nowMs fs with
      | (finalAvatar, fs2) =>
        (list ++ [{ id := did, name := data.name, key := some dkey, avatar := jsOrStr finalAvatar none, isSelf := false }], fs2)
  | _, _ => (list, fs)

/-- Embedding of `approveNewKey`'s confirmed branch (contact details
screen): replace the stored key by the staged key, clear the warning
and the staged key, and reset out-of-band verification. -/
def approveNewKeyList (contactId : String) (list : List Contact) : List Contact :=
  list.map (fun c =>
    if c.id = contactId then
      { c with key := c.pendingNewKey, securityWarning := false, pendingNewKey := none, isVerified := false }
    else c)

/-- The avatar computation of `addContactLocally`: save a data-URI
avatar locally (falling back to the original value when saving
fails), pass any other value through. -/
def manualFinalAvatar (ncId : String) (avatar : Option String) (nowMs : Int)
    (fs : FS) : Option String × FS :=
  match avatar with
  | some av =>
    if av ≠ "" && jsStartsWith av "data:" then
      match saveAvatarLocally ncId av nowMs fs with
      | (some l, fs1) => (some l, fs1)
      | (none, fs1) => (avatar, fs1)
    else (avatar, fs)
  | none => (avatar, fs)

/-- Embedding of `addContactLocally` (contacts screen): for a known
contact id with a different key, stage the new key on every matching
entry; for an equal key do nothing; otherwise append the new
contact. -/
def addContactLocally (nc : Contact) (list : List Contact) (fs : FS)
    (nowMs : Int) : List Contact × FS :=
  match list.find? (fun c => c.id = nc.id) with
  | some existing =>
    if existing.key ≠ nc.key then
      (list.map (fun c =>
        if c.id = nc.id then { c with securityWarning := true, pendingNewKey := nc.key }
        else c), fs)
    else (list, fs)
  | none =>
    match manualFinalAvatar nc.id nc.avatar nowMs fs with
    | (finalAvatar, fs2) =>
      let fallbackName := "Contact " ++ String.mk (nc.id.data.take 4)
      let newName := match nc.name with
        | some n => if n = "" then fallbackName else n
        | none => fallbackName
      (list ++ [{ id := nc.id, name := some newName, key := nc.key, avatar := jsOrStr finalAvatar none, isSelf := false }], fs2)

theorem findIndexById_lt (did : String) (list : List Contact) (i : Nat)
    (h : findIndexById did list = some i) : i < list.length := by
  induction list generalizing i with
  | nil => simp [findIndexById] at h
  | cons c rest ih =>
    simp only [findIndexById] at h
    by_cases hc : c.id = did
    · rw [if_pos hc] at h
      cases h
      simp
    · rw [if_neg hc] at h
      rcases hmap : findIndexById did rest with _ | j
      · rw [hmap] at h; simp at h
      · rw [hmap] at h
        simp only [Option.map_some', Option.some.injEq] at h
        have := ih j hmap
        simp only [List.length_cons]
        omega

theorem handshake_mismatch_stages (data : HSData) (list : List Contact)
    (fs : FS) (now : Int) (did K1 K2 : String) (i : Nat) (c : Contact)
    (hval : validateHandshakeData data = true)
    (hid : data.id = some did) (hkey : data.key = some K2)
    (hfind : findIndexById did list = some i) (hget : list[i]? = some c)
    (hK1 : c.key = some K1) (hne : K1 ≠ K2) :
    addContactFromHandshake data list fs now =
      (list.set i { c with securityWarning := true, pendingNewKey := some K2 }, fs) := by
  simp only [addContactFromHandshake, hval, Bool.not_true, Bool.false_eq_true, if_false,
    hid, hkey, hfind, hget]
  rw [if_pos (by simp [hK1, hne])]

theorem handshake_preserves_keys (data : HSData) (list : List Contact)
    (fs : FS) (now : Int) (j : Nat) (c : Contact) (hj : list[j]? = some c) :
    ∃ c2, (addContactFromHandshake data list fs now).1[j]? = some c2 ∧ c2.key = c.key := by
  simp only [addContactFromHandshake]
  cases hv : validateHandshakeData data with
  | false => exact ⟨c, hj, rfl⟩
  | true =>
    simp only [Bool.not_true, Bool.false_eq_true, if_false]
    rcases hid : data.id with _ | did
    · rcases hkey : data.key with _ | dkey <;> simp only [hid, hkey] <;> exact ⟨c, hj, rfl⟩
    · rcases hkey : data.key with _ | dkey
      · simp only [hid, hkey]
        exact ⟨c, hj, rfl⟩
      · simp only [hid, hkey]
        rcases hfind : findIndexById did list with _ | i
        · simp only [hfind]
          rcases hfa : handshakeFinalAvatar did data.avatar now fs with ⟨fa, fs2⟩
          simp only [hfa]
          have hlt : j < list.length := by
            rcases List.getElem?_eq_some.mp hj with ⟨h, _⟩
            exact h
          exact ⟨c, by rw [List.getElem?_append, if_pos hlt]; exact hj, rfl⟩
        · simp only [hfind]
          rcases hget : list[i]? with _ | existing
          · simp only [hget]
            exact ⟨c, hj, rfl⟩
          · simp only [hget]
            have hlt : i < list.length := findIndexById_lt did list i hfind
            by_cases hkne : existing.key ≠ some dkey
            · rw [if_pos hkne]
              by_cases hij : i = j
              · subst hij
                rw [hget] at hj
                injection hj with hj
                subst hj
                exact ⟨{ existing with securityWarning := true, pendingNewKey := some dkey }, by rw [List.getElem?_set_self hlt], rfl⟩
              · exact ⟨c, by rw [List.getElem?_set_ne hij]; exact hj, rfl⟩
            · rw [if_neg hkne]
              rcases hfa : handshakeFinalAvatar did data.avatar now fs with ⟨fa, fs2⟩
              simp only [hfa]
              by_cases hij : i = j
              · subst hij
                rw [hget] at hj
                injection hj with hj
                subst hj
                exact ⟨{ existing with name := data.name, avatar := jsOrStr fa existing.avatar }, by rw [List.getElem?_set_self hlt], rfl⟩
              · exact ⟨c, by rw [List.getElem?_set_ne hij]; exact hj, rfl⟩

theorem manual_add_mismatch_stages (nc : Contact) (list : List Contact)
    (fs : FS) (now : Int) (existing : Contact)
    (hfind : list.find? (fun c => c.id = nc.id) = some existing)
    (hne : existing.key ≠ nc.key) :
    addContactLocally nc list fs now =
      (list.map (fun c =>
        if c.id = nc.id then { c with securityWarning := true, pendingNewKey := nc.key }
        else c), fs) := by
  simp only [addContactLocally, hfind]
  rw [if_pos hne]

theorem approve_applies_pending (cid : String) (list : List Contact)
    (j : Nat) (c : Contact) (hj : list[j]? = some c) (hid : c.id = cid) :
    (approveNewKeyList cid list)[j]? =
      some { c with key := c.pendingNewKey, securityWarning := false, pendingNewKey := none, isVerified := false } := by
  simp only [approveNewKeyList, List.getElem?_map, hj, Option.map_some']
  rw [if_pos hid]

/-- Claim C1: an inbound handshake (or manual contact add) whose
contact id matches a stored contact but whose key differs never
replaces the stored key — it only sets `securityWarning` and stages
the new key in `pendingNewKey`; handshake ingestion never changes any
stored key in any branch; and only the explicit approval operation
installs the staged key, which also clears the warning, clears the
staged key and resets `isVerified`. -/
theorem key_rotation_non_clobbering :
    (∀ (data : HSData) (list : List Contact) (fs : FS) (now : Int)
        (did K1 K2 : String) (i : Nat) (c : Contact),
      validateHandshakeData data = true → data.id = some did → data.key = some K2 →
      findIndexById did list = some i → list[i]? = some c →
      c.key = some K1 → K1 ≠ K2 →
      addContactFromHandshake data list fs now =
        (list.set i { c with securityWarning := true, pendingNewKey := some K2 }, fs)) ∧
    (∀ (data : HSData) (list : List Contact) (fs : FS) (now : Int) (j : Nat) (c : Contact),
      list[j]? = some c →
      ∃ c2, (addContactFromHandshake data list fs now).1[j]? = some c2 ∧ c2.key = c.key) ∧
    (∀ (nc : Contact) (list : List Contact) (fs : FS) (now : Int) (existing : Contact),
      list.find? (fun c => c.id = nc.id) = some existing → existing.key ≠ nc.key →
      addContactLocally nc list fs now =
        (list.map (fun c =>
          if c.id = nc.id then { c with securityWarning := true, pendingNewKey := nc.key }
          else c), fs)) ∧
    (∀ (cid : String) (list : List Contact) (j : Nat) (c : Contact),
      list[j]? = some c → c.id = cid →
      (approveNewKeyList cid list)[j]? =
        some { c with key := c.pendingNewKey, securityWarning := false, pendingNewKey := none, isVerified := false }) :=
  ⟨handshake_mismatch_stages, handshake_preserves_keys,
    manual_add_mismatch_stages, approve_applies_pending⟩

/-- Stored key of the key-rotation witness contact. -/
def wKeyOld : String := String.mk (List.replicate 64 'a')

/-- Incoming different key of the key-rotation witness handshake. -/
def wKeyNew : String := String.mk (List.replicate 64 'b')

/-- The stored contact of the key-rotation witness. -/
def wContact : Contact := { id := "AABBCCDDEEFF", name := some "Bob", key := some wKeyOld }

/-- The incoming handshake payload of the key-rotation witness. -/
def wHS : HSData := { id := some "AABBCCDDEEFF", key := some wKeyNew, name := some "Bob" }

/-- Concrete witness for the key-rotation claim: the mismatching
handshake stages the key, and approval then installs it. -/
theorem key_rotation_non_clobbering_witness :
    addContactFromHandshake wHS [wContact] [] 0 =
      ([{ wContact with securityWarning := true, pendingNewKey := some wKeyNew }], []) ∧
    (approveNewKeyList "AABBCCDDEEFF"
        [{ wContact with securityWarning := true, pendingNewKey := some wKeyNew }])[0]? =
      some { wContact with key := some wKeyNew, securityWarning := false, pendingNewKey := none, isVerified := false } :=
  ⟨key_rotation_non_clobbering.1 wHS [wContact] [] 0 "AABBCCDDEEFF" wKeyOld wKeyNew 0 wContact
      (by decide) rfl rfl (by decide) rfl rfl (by decide),
    key_rotation_non_clobbering.2.2.2 "AABBCCDDEEFF"
      [{ wContact with securityWarning := true, pendingNewKey := some wKeyNew }] 0
      { wContact with securityWarning := true, pendingNewKey := some wKeyNew } rfl rfl⟩

/-- Input state for the concrete migration instance: a legacy
plaintext JSON blob under key `cfg`. -/
def migState : StorageState :=
  { items := [("cfg", "[1,2]")], encKey := some (List.replicate 32 3) }

/-- Storage state holding an empty-string blob under key `k` with the
encryption key available. -/
def emptyBlobState : StorageState :=
  { items := [("k", "")], encKey := some (List.replicate 32 1) }

set_option maxRecDepth 8000 in
/-- Concrete witness for the amended legacy-migration behaviour of
`secureGet`: the plaintext JSON blob is returned unchanged and the
store is rewritten with its encryption; an empty blob is returned as
absent with storage untouched. -/
theorem secure_get_migrates_witness :
    (secureGet "cfg" rtNonce migState).1 = some "[1,2]" ∧
    secureGet "k" rtNonce emptyBlobState = (none, emptyBlobState) := by
  constructor
  · rw [secure_get_migrates.1 "cfg" "[1,2]" (List.replicate 32 3) rtNonce migState rfl rfl
      (by decide) (by decide)]
    decide
  · exact secure_get_migrates.2 "k" rtNonce emptyBlobState (by decide)

set_option maxRecDepth 8000 in
/-- Counterexample to claim C4 as stated: the empty string is a stored
blob that is too short to be a valid envelope (its model decode is
zero bytes) and is not valid JSON, so the claim demands that
`secureGet` delete the storage key and return absent — but the
program's `if (!raw) return null` guard returns absent with the key
still stored and storage untouched. -/
theorem secure_get_migrates_cex :
    migrationTriggered "" (List.replicate 32 1) = true ∧
    isValidJsonModel "" = false ∧
    secureGet "k" rtNonce emptyBlobState = (none, emptyBlobState) ∧
    kvGet "k" (secureGet "k" rtNonce emptyBlobState).2.items = some "" := by
  refine ⟨by decide, by decide, by decide, by decide⟩

/-! ## Signal-protocol dispatcher (`checkGlobalMessages` in the tab
layout) and ephemeral retention

The dispatcher reads and writes application state through the
secure-storage layer, whose cipher round trip is verified above; here
it is modelled over the plaintext view of that layer: typed
association lists for the contact list, per-conversation histories
(`history_<id>`), ephemeral timers (`ephemeral_timer_<id>`) and
last-read marks, plus the local file store.  JSON (de)serialisation of
these records through storage is the identity in this view.  The
state whose randomness the source draws (`Date.now()`,
`Crypto.getRandomBytes`) enters as explicit arguments. -/

/-- A stored chat message. -/
structure Msg where
  id : String
  text : String
  timestamp : Int
  isMe : Bool
  status : Option String := none
deriving Repr, DecidableEq

/-- The dispatcher's view of persisted state. -/
structure DState where
  contacts : List Contact
  histories : List (String × List Msg)
  timers : List (String × Int)
  lastRead : List (String × Int)
  files : FS
deriving Repr, DecidableEq

/-- Generic association-list `getItem`. -/
def alGet {α : Type} (k : String) (l : List (String × α)) : Option α :=
  (l.find? (fun p => p.1 = k)).map (fun p => p.2)

/-- Generic association-list `setItem`. -/
def alSet {α : Type} (k : String) (v : α) (l : List (String × α)) : List (String × α) :=
  if (l.find? (fun p => p.1 = k)).isSome then
    l.map (fun p => if p.1 = k then (k, v) else p)
  else l ++ [(k, v)]

/-- Generic association-list `removeItem`. -/
def alRemove {α : Type} (k : String) (l : List (String × α)) : List (String × α) :=
  l.filter (fun p => p.1 ≠ k)

theorem alGet_alRemove_self {α : Type} (k : String) (l : List (String × α)) :
    alGet k (alRemove k l) = none := by
  simp only [alGet, alRemove]
  rw [List.find?_eq_none.mpr]
  · rfl
  · intro p hp
    have := List.of_mem_filter hp
    simpa using this

/-- JS pairwise hex chunking (`key.match(/.{1,2}/g)`). -/
def jsHexPairs : List Char → List (List Char)
  | [] => []
  | [c] => [[c]]
  | c1 :: c2 :: rest => [c1, c2] :: jsHexPairs rest

/-- Model of `parseInt(chunk, 16)` followed by `Uint8Array` coercion
(`NaN` becomes 0); simplified to all-or-nothing validity, which
coincides with `parseInt` on the validated hex keys this is applied
to. -/
def jsParseHexChunk (chunk : List Char) : Nat :=
  if chunk ≠ [] ∧ chunk.all (fun c => (hexVal c).isSome) then
    chunk.foldl (fun a c => a * 16 + (hexVal c).getD 0) 0
  else 0

/-- The inline hex-key decoding of the trial-decryption loop. -/
def jsHexToBytes (s : String) : Bytes :=
  (jsHexPairs s.data).map jsParseHexChunk

/-- Embedding of the trial-decryption loop of `checkGlobalMessages`:
skip the self contact, attempt `nacl.box.open` against each contact's
stored key in list order, and return the first success together with
the matching contact.  A missing or empty stored key throws inside
the loop's `try` and is skipped. -/
def trialDecrypt (contacts : List Contact) (secretKey nonce ct : Bytes) :
    Option (String × Contact) :=
  match contacts with
  | [] => none
  | c :: rest =>
    if c.isSelf then trialDecrypt rest secretKey nonce ct
    else match c.key with
      | none => trialDecrypt rest secretKey nonce ct
      | some kh =>
        if kh = "" then trialDecrypt rest secretKey nonce ct
        else match boxOpen ct nonce (jsHexToBytes kh) secretKey with
          | some r => some (uint8ArrayToString r, c)
          | none => trialDecrypt rest secretKey nonce ct

/-- Embedding of the anonymous-handshake branch of
`checkGlobalMessages`: for envelopes longer than 32+24 bytes, read
the embedded sender key, open the remainder under it, and accept the
plaintext only when it is an ACCEPT signal whose parsed payload
restates (case-insensitively) the very key used for decryption. -/
def tryAnonymousHandshake (fullMessage secretKey : Bytes) : Option String :=
  if 32 + 24 < fullMessage.length then
    let claimedPubKey := fullMessage.take 32
    let handshakeNonce := (fullMessage.drop 32).take 24
    let handshakeCipher := fullMessage.drop (32 + 24)
    match boxOpen handshakeCipher handshakeNonce claimedPubKey secretKey with
    | none => none
    | some result =>
      let text := uint8ArrayToString result
      if jsStartsWith text "GHOST_SIGNAL:ACCEPT:" then
        match hsParse (strDrop text 20) with
        | none => none
        | some hsData =>
          let claimedKeyHex := toHex claimedPubKey
          match hsData.key with
          | some k =>
            if k ≠ "" ∧ toLowerStr k = toLowerStr claimedKeyHex then some text
            else none
          | none => none
      else none
  else none

/-- Per-envelope decryption of `checkGlobalMessages`: trial decryption
against known contacts first, then the anonymous-handshake form; the
sender is `none` exactly in the anonymous case. -/
def processOne (snapshot : List Contact) (secretKey fullMessage : Bytes) :
    Option (String × Option Contact) :=
  let nonce := fullMessage.take nonceLength
  let ciphertext := fullMessage.drop nonceLength
  match trialDecrypt snapshot secretKey nonce ciphertext with
  | some (text, sender) => some (text, some sender)
  | none =>
    match tryAnonymousHandshake fullMessage secretKey with
    | some text => some (text, none)
    | none => none

/-- Profile-update payload fields. -/
structure PUData where
  pseudo : Option String := none
  avatar : Option String := none
deriving Repr, DecidableEq

/-- Model of `JSON.parse` on a profile-update payload. -/
def puParse (s : String) : Option PUData :=
  (jsonObjParse s).map (fun fields =>
    { pseudo := objField "pseudo" fields, avatar := objField "avatar" fields })

/-- The profile-update schema check of the dispatcher: `pseudo` must
be a string of at most 100 characters; a present (truthy) avatar is
capped at 500000. -/
def validateProfileUpdate (d : PUData) : Bool :=
  (match d.pseudo with
   | some p => decide (p.length ≤ 100)
   | none => false) &&
  (match d.avatar with
   | some a => a = "" || decide (a.length ≤ 500000)
   | none => true)

/-- Embedding of `updateContactInfo`: resolve the avatar (saving
data-URIs locally) and rewrite the matching contact's name and
avatar. -/
def updateContactInfo (contactId : String) (pu : PUData)
    (contacts : List Contact) (fs : FS) (nowMs : Int) : List Contact × FS :=
  match manualFinalAvatar contactId pu.avatar nowMs fs with
  | (finalAvatar, fs2) =>
    (contacts.map (fun c =>
      if c.id = contactId then
        if c.name ≠ pu.pseudo ∨ c.avatar ≠ finalAvatar then
          { c with name := pu.pseudo, avatar := finalAvatar }
        else c
      else c), fs2)

/-- Embedding of `deleteContactLocally`: remove the contact and the
conversation's last-read mark and history. -/
def deleteContactLocally (contactId : String) (st : DState) : DState :=
  { st with contacts := st.contacts.filter (fun c => c.id ≠ contactId), lastRead := alRemove ("last_read_" ++ contactId) st.lastRead, histories := alRemove ("history_" ++ contactId) st.histories }

/-- The SCREENSHOT branch: prepend a synthetic system message to the
sender's history. -/
def handleScreenshot (sender : Contact) (st : DState) (nowMs : Int)
    (randHex : String) : DState :=
  let historyKey := "history_" ++ sender.id
  let history := (alGet historyKey st.histories).getD []
  let who := match sender.name with
    | some n => if n = "" then sender.id else n
    | none => sender.id
  let msgText := "📸 " ++ who ++ " a pris une capture d\x27écran"
  let msg : Msg := { id := "screenshot_" ++ toString nowMs ++ "_" ++ randHex, text := msgText, timestamp := nowMs, isMe := false }
  { st with histories := alSet historyKey (msg :: history) st.histories }

/-- The READ branch: mark all own sent messages of the conversation as
read, writing only when something changed. -/
def handleRead (sender : Contact) (st : DState) : DState :=
  match alGet ("history_" ++ sender.id) st.histories with
  | none => st
  | some history =>
    if history.any (fun m => m.isMe && m.status ≠ some "read") then
      let history2 := history.map (fun m =>
        if m.isMe ∧ m.status ≠ some "read" then { m with status := some "read" } else m)
      { st with histories := alSet ("history_" ++ sender.id) history2 st.histories }
    else st

/-- The GHOST_MEDIA branch: validate the type tag and size bound, cap
the caption, write the payload to a local media file, and rewrite the
message text to a file reference; `none` models the `continue` that
drops invalid media.  The size bound `b64.length > 10*1024*1024*1.37`
is the integer comparison `10 * length > 143654912`. -/
def processMedia (decrypted : String) (files : FS) (nowMs : Int)
    (randHex : String) : Option (String × FS) :=
  let parts := splitOnChar ':' decrypted
  let mediaType := (parts.get? 1).getD ""
  if mediaType ≠ "IMAGE" ∧ mediaType ≠ "VIDEO" then none
  else match parts.get? 2 with
    | none => none
    | some b64 =>
      if b64 = "" ∨ 143654912 < 10 * b64.length then none
      else
        let caption := (parts.get? 3).getD ""
        let safeCaption := String.mk (caption.data.take 500)
        let ext := if mediaType = "VIDEO" then "mp4" else "jpg"
        let fileUri := "media_" ++ toString nowMs ++ "_" ++ randHex ++ "." ++ ext
        some ("GHOST_MEDIA_REF:" ++ mediaType ++ ":" ++ fileUri ++ ":" ++ safeCaption, (fileUri, b64) :: files)

/-- Append a freshly received chat message (newest first) to the
sender's history. -/
def appendLatestMsg (sender : Contact) (text : String) (st : DState)
    (nowMs : Int) (randHex : String) : DState :=
  let historyKey := "history_" ++ sender.id
  let history := (alGet historyKey st.histories).getD []
  let msg : Msg := { id := toString nowMs ++ "_" ++ randHex, text := text, timestamp := nowMs, isMe := false }
  { st with histories := alSet historyKey (msg :: history) st.histories }

/-- Embedding of the post-decryption dispatch of
`checkGlobalMessages`: control signals are routed to their handlers
(never stored as chat content), messages without an identified sender
are skipped, blocked senders are dropped before any storage effect,
media is validated and saved, and everything else is appended to the
conversation history. -/
def handleDecrypted (decrypted : String) (sender : Option Contact)
    (st : DState) (nowMs : Int) (randHex : String) : DState :=
  if jsStartsWith decrypted "GHOST_SIGNAL:" then
    let parts := splitOnChar ':' decrypted
    let sigType := parts.get? 1
    if sigType = some "ACCEPT" then
      let jsonStr := if jsStartsWith decrypted "GHOST_SIGNAL:ACCEPT:" then
          strDrop decrypted 20
        else strDrop decrypted 19
      match hsParse jsonStr with
      | some data =>
        match addContactFromHandshake data st.contacts st.files nowMs with
        | (contacts2, files2) => { st with contacts := contacts2, files := files2 }
      | none => st
    else
      match sender with
      | none => st
      | some sender =>
        if sigType = some "PROFILE_UPDATE" then
          match puParse (strDrop decrypted 28) with
          | some pu =>
            if validateProfileUpdate pu then
              match updateContactInfo sender.id pu st.contacts st.files nowMs with
              | (contacts2, files2) => { st with contacts := contacts2, files := files2 }
            else st
          | none => st
        else if sigType = some "DELETE" then deleteContactLocally sender.id st
        else if sigType = some "SCREENSHOT" then handleScreenshot sender st nowMs randHex
        else if sigType = some "READ" then handleRead sender st
        else st
  else
    match sender with
    | none => st
    | some sender =>
      if sender.isBlocked then st
      else
        if jsStartsWith decrypted "GHOST_MEDIA:" then
          match processMedia decrypted st.files nowMs randHex with
          | none => st
          | some (decrypted2, files2) =>
            appendLatestMsg sender decrypted2 { st with files := files2 } nowMs randHex
        else appendLatestMsg sender decrypted st nowMs randHex

/-- One queued relay item: the server-assigned delivery id (absent or
zero is falsy and never acknowledged) and the base64 envelope. -/
structure InboundItem where
  idOpt : Option Nat := none
  content : String
deriving Repr, DecidableEq

/-- `if (msg.id) processedIds.push(msg.id)`: the contribution of one
item's id under JS truthiness. -/
def jsTruthyId : Option Nat → List Nat
  | some n => if n = 0 then [] else [n]
  | none => []

/-- The poll loop of `checkGlobalMessages` over one batch: the contact
snapshot is read once before the loop; each item is base64-decoded
(a decode exception aborts the whole cycle, modelled by `none`, so
nothing is acknowledged), trial-decrypted, and dispatched; the ids of
the items that decrypted are accumulated for the final `/ack` call. -/
def processBatchGo (snapshot : List Contact) (secretKey : Bytes) (nowMs : Int)
    (randHex : Nat → String) :
    List InboundItem → Nat → DState → Option (List Nat × DState)
  | [], _, st => some ([], st)
  | m :: rest, idx, st =>
    match decodeBase64 m.content with
    | none => none
    | some decoded =>
      match processOne snapshot secretKey (stringToUint8Array decoded) with
      | none => processBatchGo snapshot secretKey nowMs randHex rest (idx + 1) st
      | some (text, sender) =>
        match processBatchGo snapshot secretKey nowMs randHex rest (idx + 1)
            (handleDecrypted text sender st nowMs (randHex idx)) with
        | none => none
        | some (pids, stF) => some (jsTruthyId m.idOpt ++ pids, stF)

/-- Embedding of `checkGlobalMessages` for one poll cycle; the
returned id list is what gets POSTed to `/ack` (when non-empty). -/
def processBatch (messages : List InboundItem) (secretKey : Bytes)
    (st : DState) (nowMs : Int) (randHex : Nat → String) :
    Option (List Nat × DState) :=
  processBatchGo st.contacts secretKey nowMs randHex messages 0 st

/-- Whether one item decrypts locally (under the snapshot or as a
valid anonymous handshake). -/
def decryptsLocally (snapshot : List Contact) (secretKey : Bytes)
    (m : InboundItem) : Bool :=
  match decodeBase64 m.content with
  | none => false
  | some decoded => (processOne snapshot secretKey (stringToUint8Array decoded)).isSome

/-- The acknowledgment contribution of one item. -/
def ackContribution (snapshot : List Contact) (secretKey : Bytes)
    (m : InboundItem) : List Nat :=
  if decryptsLocally snapshot secretKey m then jsTruthyId m.idOpt else []

/-! ## Ephemeral retention (`cleanExpiredEphemeralMessages`) -/

/-- The sweep's retention filter: keep exactly the messages with
`now - timestamp < expiryMs`. -/
def sweepFilter (nowMs expiryMs : Int) (history : List Msg) : List Msg :=
  history.filter (fun m => nowMs - m.timestamp < expiryMs)

/-- Embedding of one contact's iteration of
`cleanExpiredEphemeralMessages`: skip when no positive timer is set
or no history exists; otherwise filter, and persist only on change —
removing the record entirely when nothing survives. -/
def cleanContactHistory (nowMs : Int) (st : DState) (contact : Contact) : DState :=
  match alGet ("ephemeral_timer_" ++ contact.id) st.timers with
  | none => st
  | some timerSeconds =>
    if timerSeconds ≤ 0 then st
    else
      let expiryMs := timerSeconds * 1000
      let historyKey := "history_" ++ contact.id
      match alGet historyKey st.histories with
      | none => st
      | some history =>
        let filtered := sweepFilter nowMs expiryMs history
        if filtered.length < history.length then
          if filtered.length = 0 then
            { st with histories := alRemove historyKey st.histories }
          else { st with histories := alSet historyKey filtered st.histories }
        else st

/-- Embedding of `cleanExpiredEphemeralMessages`: sweep every
conversation. -/
def cleanExpiredEphemeralMessages (nowMs : Int) (st : DState) : DState :=
  st.contacts.foldl (cleanContactHistory nowMs) st

/-- Claim C9: the sweep retains exactly the messages with
`now - timestamp < TTL * 1000`; when a sweep with a positive timer
empties a non-empty history, the conversation's storage record is
removed entirely; and at TTL 60 s a message 61 s old is removed while
one 59 s old is retained. -/
theorem ephemeral_sweep_exact :
    (∀ (now expiry : Int) (h : List Msg) (m : Msg),
      m ∈ sweepFilter now expiry h ↔ m ∈ h ∧ now - m.timestamp < expiry) ∧
    (∀ (st : DState) (c : Contact) (t : Int) (history : List Msg) (now : Int),
      alGet ("ephemeral_timer_" ++ c.id) st.timers = some t → 0 < t →
      alGet ("history_" ++ c.id) st.histories = some history →
      sweepFilter now (t * 1000) history = [] → history ≠ [] →
      alGet ("history_" ++ c.id) (cleanContactHistory now st c).histories = none) ∧
    (sweepFilter 1000000 60000
        [{ id := "a", text := "old", timestamp := 1000000 - 61000, isMe := false },
         { id := "b", text := "new", timestamp := 1000000 - 59000, isMe := false }] =
      [{ id := "b", text := "new", timestamp := 1000000 - 59000, isMe := false }]) := by
  refine ⟨?_, ?_, by decide⟩
  · intro now expiry h m
    simp [sweepFilter, List.mem_filter]
  · intro st c t history now htimer ht hhist hswp hne
    simp only [cleanContactHistory, htimer, hhist]
    rw [if_neg (by omega : ¬ t ≤ 0)]
    simp only [hswp]
    rw [if_pos (by simpa [List.length_pos] using hne)]
    rw [if_pos (show (([] : List Msg)).length = 0 from rfl)]
    exact alGet_alRemove_self _ _

/-- Contact of the concrete sweep instance. -/
def swContact : Contact := { id := "A" }

/-- The single expired message of the concrete sweep instance. -/
def swMsgOld : Msg := { id := "x", text := "bye", timestamp := 0, isMe := false }

/-- Input state of the concrete sweep instance: a 60-second timer and
one long-expired message. -/
def swState : DState :=
  { contacts := [swContact], histories := [("history_A", [swMsgOld])],
    timers := [("ephemeral_timer_A", 60)], lastRead := [], files := [] }

/-- Concrete witness for the sweep claim: the sweep removes the
conversation record outright when every message has expired. -/
theorem ephemeral_sweep_exact_witness :
    alGet ("history_" ++ swContact.id)
      (cleanContactHistory 100000 swState swContact).histories = none :=
  ephemeral_sweep_exact.2.1 swState swContact 60 [swMsgOld] 100000
    (by decide) (by decide) (by decide) (by decide) (by decide)

theorem handleDecrypted_blocked (text : String) (sender : Contact) (st : DState)
    (nowMs : Int) (randHex : String)
    (hb : sender.isBlocked = true)
    (hsig : jsStartsWith text "GHOST_SIGNAL:" = false) :
    handleDecrypted text (some sender) st nowMs randHex = st := by
  simp [handleDecrypted, hsig, hb]

theorem processBatch_blocked (m : InboundItem) (st : DState) (secretKey : Bytes)
    (nowMs : Int) (randHex : Nat → String) (decoded text : String) (sender : Contact)
    (hdec : decodeBase64 m.content = some decoded)
    (hp : processOne st.contacts secretKey (stringToUint8Array decoded) = some (text, some sender))
    (hb : sender.isBlocked = true)
    (hsig : jsStartsWith text "GHOST_SIGNAL:" = false) :
    processBatch [m] secretKey st nowMs randHex = some (jsTruthyId m.idOpt, st) := by
  simp only [processBatch, processBatchGo, hdec, hp]
  rw [handleDecrypted_blocked text sender st nowMs (randHex 0) hb hsig]
  simp [processBatchGo]

/-- Claim C10: an envelope that opens under the stored key of a
blocked contact and whose plaintext is not a GHOST_SIGNAL control
message is dropped before any storage effect: the post-decryption
dispatch leaves the entire persisted state (histories, contacts,
files) unchanged, and a single-item poll returns the state
untouched (while still acknowledging the item). -/
theorem blocked_contact_frame :
    (∀ (text : String) (sender : Contact) (st : DState) (nowMs : Int) (randHex : String),
      sender.isBlocked = true → jsStartsWith text "GHOST_SIGNAL:" = false →
      handleDecrypted text (some sender) st nowMs randHex = st) ∧
    (∀ (m : InboundItem) (st : DState) (secretKey : Bytes) (nowMs : Int)
        (randHex : Nat → String) (decoded text : String) (sender : Contact),
      decodeBase64 m.content = some decoded →
      processOne st.contacts secretKey (stringToUint8Array decoded) = some (text, some sender) →
      sender.isBlocked = true → jsStartsWith text "GHOST_SIGNAL:" = false →
      processBatch [m] secretKey st nowMs randHex = some (jsTruthyId m.idOpt, st)) :=
  ⟨fun text sender st nowMs randHex hb hsig =>
      handleDecrypted_blocked text sender st nowMs randHex hb hsig,
    fun m st secretKey nowMs randHex decoded text sender hdec hp hb hsig =>
      processBatch_blocked m st secretKey nowMs randHex decoded text sender hdec hp hb hsig⟩

/-- Sender secret key of the concrete blocked-contact instance. -/
def bkSkS : Bytes := List.replicate 32 1

/-- Recipient secret key of the concrete blocked-contact instance. -/
def bkSkR : Bytes := List.replicate 32 2

/-- Nonce of the concrete blocked-contact instance. -/
def bkNonce : Bytes := List.replicate 24 3

/-- Ciphertext of the concrete blocked-contact instance: `"hello"`
sealed from the sender to the recipient. -/
def bkCipher : Bytes := boxSeal (stringToUint8Array "hello") bkNonce (pkOf bkSkR) bkSkS

/-- The blocked contact holding the sender's key. -/
def bkContact : Contact := { id := "FRIEND", key := some (toHex (pkOf bkSkS)), isBlocked := true }

/-- State of the concrete blocked-contact instance. -/
def bkState : DState :=
  { contacts := [bkContact], histories := [("history_FRIEND", [])],
    timers := [], lastRead := [], files := [] }

/-- The queued item of the concrete blocked-contact instance. -/
def bkItem : InboundItem :=
  { idOpt := some 5, content := encodeBase64 (uint8ArrayToString (bkNonce ++ bkCipher)) }

set_option maxRecDepth 16000 in
/-- Concrete witness for the blocked-contact frame claim. -/
theorem blocked_contact_frame_witness :
    processBatch [bkItem] bkSkR bkState 0 (fun _ => "ab") = some ([5], bkState) :=
  blocked_contact_frame.2 bkItem bkState bkSkR 0 (fun _ => "ab")
    (uint8ArrayToString (bkNonce ++ bkCipher)) "hello" bkContact
    (by decide) (by decide) (by decide) (by decide)

theorem processBatchGo_acks (snapshot : List Contact) (secretKey : Bytes)
    (nowMs : Int) (randHex : Nat → String) (messages : List InboundItem) :
    ∀ (idx : Nat) (st : DState),
      (∀ m ∈ messages, (decodeBase64 m.content).isSome) →
      ∃ st2, processBatchGo snapshot secretKey nowMs randHex messages idx st =
        some (messages.bind (ackContribution snapshot secretKey), st2) := by
  induction messages with
  | nil =>
    intro idx st _
    exact ⟨st, rfl⟩
  | cons m rest ih =>
    intro idx st hdec
    have hm := hdec m (List.mem_cons_self _ _)
    have hrestdec : ∀ x ∈ rest, (decodeBase64 x.content).isSome :=
      fun x hx => hdec x (List.mem_cons_of_mem _ hx)
    rcases hd : decodeBase64 m.content with _ | decoded
    · rw [hd] at hm
      simp at hm
    · simp only [processBatchGo, hd]
      rcases hp : processOne snapshot secretKey (stringToUint8Array decoded) with _ | ts
      · obtain ⟨st2, hrest⟩ := ih (idx + 1) st hrestdec
        refine ⟨st2, ?_⟩
        rw [hrest]
        have hcontrib : ackContribution snapshot secretKey m = [] := by
          simp [ackContribution, decryptsLocally, hd, hp]
        simp [List.cons_bind, hcontrib]
      · rcases ts with ⟨text, sender⟩
        obtain ⟨st2, hrest⟩ :=
          ih (idx + 1) (handleDecrypted text sender st nowMs (randHex idx)) hrestdec
        refine ⟨st2, ?_⟩
        dsimp only
        rw [hrest]
        have hcontrib : ackContribution snapshot secretKey m = jsTruthyId m.idOpt := by
          simp [ackContribution, decryptsLocally, hd, hp]
        simp [List.cons_bind, hcontrib]

theorem processBatchGo_abort (snapshot : List Contact) (secretKey : Bytes)
    (nowMs : Int) (randHex : Nat → String) (messages : List InboundItem) :
    ∀ (idx : Nat) (st : DState) (m : InboundItem),
      m ∈ messages → decodeBase64 m.content = none →
      processBatchGo snapshot secretKey nowMs randHex messages idx st = none := by
  induction messages with
  | nil =>
    intro idx st m hm _
    simp at hm
  | cons x rest ih =>
    intro idx st m hm hbad
    rcases List.mem_cons.mp hm with rfl | hmem
    · simp only [processBatchGo, hbad]
    · rcases hd : decodeBase64 x.content with _ | decoded
      · simp only [processBatchGo, hd]
      · simp only [processBatchGo, hd]
        rcases hp : processOne snapshot secretKey (stringToUint8Array decoded) with _ | ts
        · exact ih (idx + 1) st m hmem hbad
        · rcases ts with ⟨text, sender⟩
          dsimp only
          rw [ih (idx + 1) (handleDecrypted text sender st nowMs (randHex idx)) m hmem hbad]

/-- Claim C5 (amended): the dispatcher acknowledges exactly the items
that decrypted locally (under a known contact key or as a valid
anonymous handshake) and carry a truthy delivery id — independently
of every storage effect, so items dropped after decryption (blocked
sender, malformed media, control signals) are acknowledged too; items
that fail to decrypt are never acknowledged; and a base64 decode
exception on any item aborts the whole cycle before any
acknowledgment. -/
theorem acknowledgment_tracks_decryption :
    (∀ (messages : List InboundItem) (secretKey : Bytes) (st : DState)
        (nowMs : Int) (randHex : Nat → String),
      (∀ m ∈ messages, (decodeBase64 m.content).isSome) →
      ∃ st2, processBatch messages secretKey st nowMs randHex =
        some (messages.bind (ackContribution st.contacts secretKey), st2)) ∧
    (∀ (messages : List InboundItem) (secretKey : Bytes) (st : DState)
        (nowMs : Int) (randHex : Nat → String) (m : InboundItem),
      m ∈ messages → decodeBase64 m.content = none →
      processBatch messages secretKey st nowMs randHex = none) :=
  ⟨fun messages secretKey st nowMs randHex hdec =>
      processBatchGo_acks st.contacts secretKey nowMs randHex messages 0 st hdec,
    fun messages secretKey st nowMs randHex m hm hbad =>
      processBatchGo_abort st.contacts secretKey nowMs randHex messages 0 st m hm hbad⟩

/-- An envelope that opens under no known key: three garbage bytes in
valid base64, carrying delivery id 7. -/
def undecItem : InboundItem :=
  { idOpt := some 7, content := encodeBase64 (uint8ArrayToString [1, 2, 3]) }

/-- An item whose content is not valid base64: its decode throws,
modelled by `decodeBase64 = none`. -/
def badB64Item : InboundItem := { idOpt := some 9, content := "!!" }

set_option maxRecDepth 16000 in
/-- Concrete witness for the amended acknowledgment claim: in a batch
of one decrypting-then-dropped item (blocked sender) and one
undecryptable item, exactly the first is acknowledged; and a batch
containing an item with invalid base64 acknowledges nothing at all. -/
theorem acknowledgment_tracks_decryption_witness :
    ((∀ m ∈ [bkItem, undecItem], (decodeBase64 m.content).isSome) ∧
      ∃ st2, processBatch [bkItem, undecItem] bkSkR bkState 0 (fun _ => "ab") =
        some ([5], st2)) ∧
    processBatch [badB64Item, bkItem] bkSkR bkState 0 (fun _ => "ab") = none := by
  constructor
  · refine ⟨by decide, ?_⟩
    obtain ⟨st2, hh⟩ := acknowledgment_tracks_decryption.1 [bkItem, undecItem] bkSkR bkState 0
      (fun _ => "ab") (by decide)
    refine ⟨st2, ?_⟩
    rw [hh]
    have hbind : [bkItem, undecItem].bind (ackContribution bkState.contacts bkSkR) = [5] := by
      decide
    rw [hbind]
  · exact acknowledgment_tracks_decryption.2 [badB64Item, bkItem] bkSkR bkState 0
      (fun _ => "ab") badB64Item (by decide) (by decide)

set_option maxRecDepth 16000 in
/-- Counterexample to claim C5 as stated: an envelope that fails to
decrypt under every known key is not acknowledged — its delivery id 7
is absent from the acknowledged list (which is empty, so no `/ack`
call is made at all). -/
theorem acknowledgment_cex :
    processBatch [undecItem] bkSkR bkState 0 (fun _ => "ab") = some ([], bkState) ∧
    ¬ (7 ∈ ([] : List Nat)) := by
  constructor
  · decide
  · decide

/-- Claim C2: the anonymous-handshake branch accepts a payload only
when authenticated decryption under the embedded sender key succeeds,
the plaintext is an ACCEPT signal, and the handshake data inside the
plaintext restates (case-insensitively) exactly the embedded key; a
parsed key differing from the decryption key forces rejection. -/
theorem anonymous_handshake_key_binding :
    (∀ (fullMessage secretKey : Bytes) (text : String),
      tryAnonymousHandshake fullMessage secretKey = some text →
      ∃ r hs k,
        boxOpen (fullMessage.drop (32 + 24)) ((fullMessage.drop 32).take 24)
          (fullMessage.take 32) secretKey = some r ∧
        text = uint8ArrayToString r ∧
        jsStartsWith text "GHOST_SIGNAL:ACCEPT:" = true ∧
        hsParse (strDrop text 20) = some hs ∧
        hs.key = some k ∧ k ≠ "" ∧
        toLowerStr k = toLowerStr (toHex (fullMessage.take 32))) ∧
    (∀ (fullMessage secretKey r : Bytes) (hs : HSData) (k : String),
      boxOpen (fullMessage.drop (32 + 24)) ((fullMessage.drop 32).take 24)
        (fullMessage.take 32) secretKey = some r →
      hsParse (strDrop (uint8ArrayToString r) 20) = some hs →
      hs.key = some k →
      toLowerStr k ≠ toLowerStr (toHex (fullMessage.take 32)) →
      tryAnonymousHandshake fullMessage secretKey = none) := by
  constructor
  · intro fullMessage secretKey text h
    unfold tryAnonymousHandshake at h
    by_cases hlen : 32 + 24 < fullMessage.length
    case neg =>
      rw [if_neg hlen] at h
      cases h
    rw [if_pos hlen] at h
    dsimp only at h
    rcases hopen : boxOpen (fullMessage.drop (32 + 24)) ((fullMessage.drop 32).take 24)
        (fullMessage.take 32) secretKey with _ | r
    · rw [hopen] at h
      cases h
    · rw [hopen] at h
      dsimp only at h
      cases hswv : jsStartsWith (uint8ArrayToString r) "GHOST_SIGNAL:ACCEPT:" with
      | false =>
        rw [hswv] at h
        cases h
      | true =>
        rw [hswv] at h
        rw [if_pos rfl] at h
        rcases hhs : hsParse (strDrop (uint8ArrayToString r) 20) with _ | hs
        · rw [hhs] at h
          cases h
        · rw [hhs] at h
          dsimp only at h
          rcases hk : hs.key with _ | k
          · rw [hk] at h
            cases h
          · rw [hk] at h
            dsimp only at h
            by_cases hcond : k ≠ "" ∧ toLowerStr k = toLowerStr (toHex (fullMessage.take 32))
            · rw [if_pos hcond] at h
              injection h with h
              subst h
              exact ⟨r, hs, k, rfl, rfl, hswv, hhs, hk, hcond.1, hcond.2⟩
            · rw [if_neg hcond] at h
              cases h
  · intro fullMessage secretKey r hs k hopen hhs hk hne
    unfold tryAnonymousHandshake
    by_cases hlen : 32 + 24 < fullMessage.length
    case neg => rw [if_neg hlen]
    rw [if_pos hlen]
    simp only [hopen]
    cases hswv : jsStartsWith (uint8ArrayToString r) "GHOST_SIGNAL:ACCEPT:" with
    | false => simp [hswv]
    | true =>
      simp only [hswv, if_true, hhs, hk]
      rw [if_neg (fun hc => hne hc.2)]

/-- Recipient secret key of the concrete anonymous-handshake
instance. -/
def ahSkR : Bytes := List.replicate 32 4

/-- Sender secret key of the concrete anonymous-handshake instance. -/
def ahSkS : Bytes := List.replicate 32 6

/-- Embedded sender public key. -/
def ahPk : Bytes := pkOf ahSkS

/-- Handshake plaintext: an ACCEPT signal whose payload restates the
sender's key. -/
def ahPlain : String := "GHOST_SIGNAL:ACCEPT:" ++ "\x7bkey=" ++ toHex ahPk ++ "\x7d"

/-- Nonce of the concrete anonymous-handshake instance. -/
def ahNonce : Bytes := List.replicate 24 8

/-- The full anonymous envelope: sender key, nonce, ciphertext. -/
def ahMsg : Bytes :=
  ahPk ++ ahNonce ++ boxSeal (stringToUint8Array ahPlain) ahNonce (pkOf ahSkR) ahSkS

set_option maxRecDepth 16000 in
/-- Concrete witness for the anonymous-handshake key-binding claim:
the well-formed envelope is accepted and the theorem recovers the
restated key. -/
theorem anonymous_handshake_key_binding_witness :
    tryAnonymousHandshake ahMsg ahSkR = some ahPlain ∧
    ∃ r hs k,
      boxOpen (ahMsg.drop (32 + 24)) ((ahMsg.drop 32).take 24)
        (ahMsg.take 32) ahSkR = some r ∧
      ahPlain = uint8ArrayToString r ∧
      jsStartsWith ahPlain "GHOST_SIGNAL:ACCEPT:" = true ∧
      hsParse (strDrop ahPlain 20) = some hs ∧
      hs.key = some k ∧ k ≠ "" ∧
      toLowerStr k = toLowerStr (toHex (ahMsg.take 32)) :=
  ⟨by decide, anonymous_handshake_key_binding.1 ahMsg ahSkR ahPlain (by decide)⟩

end App
